import Mathlib

/-!
# Verification of the confuse-module harness coordinator

A shallow embedding of the harness coordinator found in
`src/modules/confuse-module/src/context.rs` (struct `ModuleCtx`), of the
coverage-map bootstrap shared with `src/modules/ipc-test-module/src/lib.rs`,
and of the `TraceMode` string parsing in
`src/modules/confuse_module/src/config/mod.rs`.

Machine integers (`u64`) are modelled as `Nat` with an explicit `% 2 ^ 64`
at the operations where Rust wrapping semantics can differ from `Nat`
arithmetic (the left shift in the edge hash, the physical-address
computation in the input-injection loop).  Fallible Rust code
(`anyhow::Result`) is modelled with `Except HarnessError`.  Simulator
side effects (checkpoint save/restore, physical-memory writes, resuming,
IPC sends) are recorded as an explicit `Effect` trace; a call that errors
aborts the run, matching the fatal-error policy of the module.
-/

/-- Decidable equality for `Except` results, used to evaluate the embedded
functions on concrete inputs. -/
instance exceptDecEq {ε α : Type} [DecidableEq ε] [DecidableEq α] :
    DecidableEq (Except ε α) := fun x y =>
  match x, y with
  | .ok a, .ok b =>
    if h : a = b then .isTrue (by rw [h]) else .isFalse (fun hc => h (Except.ok.inj hc))
  | .error a, .error b =>
    if h : a = b then .isTrue (by rw [h]) else .isFalse (fun hc => h (Except.error.inj hc))
  | .ok _, .error _ => .isFalse (fun hc => Except.noConfusion hc)
  | .error _, .ok _ => .isFalse (fun hc => Except.noConfusion hc)

namespace Confuse

/-- Modelled from the spec: the `Fault` kind lives in the `confuse_fuzz`
crate, which is not under `src/`.  The spec describes it as a closed set of
guest CPU exceptions in which `Triple` is special-cased (reported by a
distinct simulator hook) while every other fault uses the general
core-exception hook with an exception number. -/
inductive Fault
  | triple
  | exception (n : Nat)
deriving DecidableEq

/-- `TraceMode` from `src/modules/confuse_module/src/config/mod.rs`. -/
inductive TraceMode
  | once
  | hitCount
deriving DecidableEq

/-- `InputConfig` from `src/modules/confuse_module/src/config/mod.rs`
(the `InitInfo` received by `ModuleCtx::try_new`).  The Rust `HashSet<Fault>`
is modelled as a `List Fault` used only through membership; the
floating-point `timeout: f64` field plays no part in any claim and is
omitted. -/
structure InputConfig where
  faults : List Fault
  trace_mode : TraceMode
deriving DecidableEq

/-- `StopType` carried by `SimicsEvent::Stopped`.  The type lives in the
`confuse_fuzz` crate (not under `src/`); `context.rs` uses the `Normal` and
`Crash` constructors, and the spec's message schema also lists `Timeout`. -/
inductive StopType
  | normal
  | crash
  | timeout
deriving DecidableEq

/-- `Magic` from `crate::magic` as used by `ModuleCtx::handle_stop`. -/
inductive Magic
  | start
  | stop
deriving DecidableEq

/-- `StopReason` as used by `ModuleCtx::handle_stop`: its match over
`Magic(m)`, `Crash` and `None` is exhaustive. -/
inductive StopReason
  | magic (m : Magic)
  | crash
deriving DecidableEq

/-- `FuzzerEvent`, the fuzzer-to-harness messages matched by `context.rs`.
The source constructor `FuzzerEvent::Initialize(InitInfo)` is named `init`
here. -/
inductive FuzzerEvent
  | init (cfg : InputConfig)
  | run (input : List Nat)
  | reset
  | stop
deriving DecidableEq

/-- `SimicsEvent`, the harness-to-fuzzer messages sent by `context.rs`.
The shared-memory handle payload of `SharedMem` is opaque and omitted. -/
inductive SimicsEvent
  | sharedMem
  | ready
  | stopped (ty : StopType)
deriving DecidableEq

/-- Error kinds for the `bail!` / `ensure!` / `?` exits of the embedded
functions.  The Rust code raises formatted `anyhow` messages; only the
error site matters here. -/
inductive HarnessError
  | unexpectedEvent
  | peerGone
  | outOfRange
  | noProcessor
  | badStateInfo
  | noSuchTraceMode
deriving DecidableEq

/-- Simulator / IPC side effects performed by the coordinator, in program
order.  `saveMicroCheckpoint` stands for
`VT_save_micro_checkpoint("origin", Sim_MC_ID_User | Sim_MC_Persistent)`. -/
inductive Effect
  | saveMicroCheckpoint
  | restoreMicroCheckpoint (idx : Nat)
  | discardFuture
  | writePhys (addr : Nat) (val : Nat) (width : Nat)
  | resumeSimulation
  | send (msg : SimicsEvent)
deriving DecidableEq

/-- The simulator callbacks installed via `SIM_hap_add_callback`. -/
inductive Callback
  | magicInstruction
  | simulationStopped
  | coreException
  | x86TripleFault
deriving DecidableEq

/-- The state owned by `ModuleCtx` (`context.rs`, lines 47-60), without the
opaque handles (`_cls`, channel endpoints, `_shm`).  `processor` records
whether the `Option<Processor>` is `Some`; `map` holds the bytes of the
shared-memory coverage map seen through `writer`. -/
structure ModuleCtx where
  processor : Bool
  stop_reason : Option StopReason
  initialized : Bool
  prev_loc : Nat
  buffer_address : Nat
  buffer_size : Nat
  init_info : InputConfig
  map : List Nat
deriving DecidableEq

/-- The register and attribute values the simulator supplies during one
`handle_stop`: the `rsi` / `rdi` integer registers of the traced processor
and the length of the `sim.rexec.state_info` attribute list. -/
structure SimEnv where
  rsi : Nat
  rdi : Nat
  sinfo_size : Nat
deriving DecidableEq

/-- The coverage-map initialization loop shared verbatim by
`confuse-module/src/context.rs` (lines 116-118) and
`ipc-test-module/src/lib.rs` (lines 60-62):
`writer.write_at(&[(i % u8::MAX as usize) as u8], i)` for each `i < len`.
`u8::MAX` is `255`, so byte `i` is `i % 255`. -/
def initMap (len : Nat) : List Nat :=
  (List.range len).map (fun i => i % 255)

/-- Modelled from the spec: `IpcShmWriter::read_byte` lives in the
`ipc_shm` crate, not under `src/`; per spec section 4.1 it reads the byte
at an index `< len` and fails with `OutOfRange` otherwise. -/
def readByte (m : List Nat) (i : Nat) : Except HarnessError Nat :=
  match m.get? i with
  | some b => .ok b
  | none => .error .outOfRange

/-- Modelled from the spec: `IpcShmWriter::write_at` for a single byte,
from the `ipc_shm` crate (not under `src/`); per spec section 4.1 it
writes at an index `< len` and fails with `OutOfRange` otherwise. -/
def writeAt (m : List Nat) (b i : Nat) : Except HarnessError (List Nat) :=
  if i < m.length then .ok (m.set i b) else .error .outOfRange

/-- `ModuleCtx::log` (`context.rs`, lines 409-416):

    let cur_loc = ((pc >> 4) ^ (pc << 8)) & (self.writer.len() - 1) as u64;
    let data = &[self.writer.read_byte(cur_loc as usize)?];
    self.writer.write_at(data, (cur_loc ^ self.prev_loc) as usize)?;
    self.prev_loc >>= 1;

`pc` is a `u64`, so the left shift keeps only the low 64 bits. -/
def ModuleCtx.log (ctx : ModuleCtx) (pc : Nat) : Except HarnessError ModuleCtx :=
  let cur_loc := ((pc / 16) ^^^ ((pc * 256) % (2 ^ 64))) &&& (ctx.map.length - 1)
  match readByte ctx.map cur_loc with
  | .error e => .error e
  | .ok b =>
    match writeAt ctx.map b (cur_loc ^^^ ctx.prev_loc) with
    | .error e => .error e
    | .ok m => .ok { ctx with map := m, prev_loc := ctx.prev_loc / 2 }

/-- Little-endian byte composition: `u64::from_le_bytes` on the 8-byte
buffer built by the injection loop. -/
def fromLeBytes : List Nat → Nat
  | [] => 0
  | b :: rest => b + 256 * fromLeBytes rest

/-- `let data: &mut [u8] = &mut [0; 8]` overwritten on a prefix by `chunk`:
the chunk zero-padded on the right to 8 bytes. -/
def pad8 (chunk : List Nat) : List Nat :=
  chunk ++ List.replicate (8 - chunk.length) 0

/-- Fuel-driven worker for `chunks8`; the fuel only forces structural
termination and is irrelevant once it is at least `l.length`. -/
def chunksGo : Nat → List Nat → List (List Nat)
  | 0, _ => []
  | _, [] => []
  | fuel + 1, a :: rest => ((a :: rest).take 8) :: chunksGo fuel ((a :: rest).drop 8)

/-- `input.chunks(8)`: the list of successive 8-byte chunks of `input`,
the final chunk possibly shorter. -/
def chunks8 (l : List Nat) : List (List Nat) :=
  chunksGo l.length l

/-- The body of the injection loop, with `i` the running chunk index:

    for (i, chunk) in input.chunks(8).enumerate() {
        ...
        let val = u64::from_le_bytes(data.try_into()?);
        let addr: physical_address_t = self.buffer_address + (i * 8) as u64;
        unsafe { SIM_write_phys_memory(cpu, addr, val, chunk.len().try_into()?) };
    }

The `u64` address addition wraps, hence the `% 2 ^ 64`. -/
def injectFrom (base : Nat) : Nat → List (List Nat) → List Effect
  | _, [] => []
  | i, c :: cs =>
    Effect.writePhys ((base + 8 * i) % (2 ^ 64)) (fromLeBytes (pad8 c)) c.length
      :: injectFrom base (i + 1) cs

/-- The physical-memory writes performed for one `Run(input)`, starting at
`buffer_address`.  This loop appears verbatim three times in `context.rs`
(lines 245-262, 313-324 and 372-383). -/
def injectWrites (base : Nat) (input : List Nat) : List Effect :=
  injectFrom base 0 (chunks8 input)

/-- The `recv()` / `FuzzerEvent::Run` tail shared verbatim by the three
stop-handling branches of `ModuleCtx::handle_stop` (`context.rs`, lines
241-268, 309-330 and 368-389), together with the common
`self.stop_reason = None` epilogue (line 394): receive a message; on
`Run(input)` write the input into guest physical memory at
`buffer_address` and resume the simulation; on any other message fail
(`bail!("Unexpected event")`); an exhausted channel is `PeerGone`. -/
def ModuleCtx.handleRun (ctx : ModuleCtx) (inbox : List FuzzerEvent) :
    Except HarnessError (ModuleCtx × List FuzzerEvent × List Effect) :=
  match inbox with
  | FuzzerEvent.run input :: rest =>
    .ok ({ ctx with stop_reason := none }, rest,
      injectWrites ctx.buffer_address input ++ [Effect.resumeSimulation])
  | _ :: _ => .error .unexpectedEvent
  | [] => .error .peerGone

/-- The `Magic::Stop` and `Crash` arms of `ModuleCtx::handle_stop`
(`context.rs`, lines 271-331 and 333-390), which are identical except for
the `StopType` sent: send `Stopped(ty)`; check that
`sim.rexec.state_info` has exactly one entry (`ensure!`); receive a
message — `Reset` restores micro-checkpoint 0 and discards future events,
`Stop` does nothing, anything else fails; then send `Ready`, require the
processor, and fall into the shared `Run` tail. -/
def ModuleCtx.handleStopped (ctx : ModuleCtx) (ty : StopType) (env : SimEnv)
    (inbox : List FuzzerEvent) :
    Except HarnessError (ModuleCtx × List FuzzerEvent × List Effect) :=
  if env.sinfo_size = 1 then
    match inbox with
    | FuzzerEvent.reset :: rest =>
      if ctx.processor then
        match ctx.handleRun rest with
        | .ok (c, r, effs) =>
          .ok (c, r,
            Effect.send (.stopped ty) :: Effect.restoreMicroCheckpoint 0 ::
              Effect.discardFuture :: Effect.send .ready :: effs)
        | .error e => .error e
      else .error .noProcessor
    | FuzzerEvent.stop :: rest =>
      if ctx.processor then
        match ctx.handleRun rest with
        | .ok (c, r, effs) =>
          .ok (c, r, Effect.send (.stopped ty) :: Effect.send .ready :: effs)
        | .error e => .error e
      else .error .noProcessor
    | _ :: _ => .error .unexpectedEvent
    | [] => .error .peerGone
  else .error .badStateInfo

/-- `ModuleCtx::handle_stop` (`context.rs`, lines 168-397).  `env` carries
the register and attribute values the simulator supplies; `inbox` is the
pending fuzzer-to-harness message stream; the result is the new state, the
unconsumed messages and the effect trace.  On `Magic::Start`:

* `initialized = true`: resume immediately (lines 172-175);
* `initialized = false`: save the `origin` micro-checkpoint, require the
  processor, read `rsi` / `rdi`, set `buffer_address` / `buffer_size`, set
  `initialized`, send `Ready` and fall into the shared `Run` tail
  (lines 176-269).

`Magic::Stop` and `Crash` behave per `handleStopped`; a `None` stop reason
does nothing.  Every successful path ends with `self.stop_reason = None`
(line 394); error paths abort the run (the module treats them as fatal). -/
def ModuleCtx.handleStop (ctx : ModuleCtx) (env : SimEnv)
    (inbox : List FuzzerEvent) :
    Except HarnessError (ModuleCtx × List FuzzerEvent × List Effect) :=
  match ctx.stop_reason with
  | some (StopReason.magic Magic.start) =>
    if ctx.initialized then
      .ok ({ ctx with stop_reason := none }, inbox, [Effect.resumeSimulation])
    else
      if ctx.processor then
        let ctx1 := { ctx with
          buffer_address := env.rsi
          buffer_size := env.rdi
          initialized := true }
        match ctx1.handleRun inbox with
        | .ok (c, r, effs) =>
          .ok (c, r, Effect.saveMicroCheckpoint :: Effect.send .ready :: effs)
        | .error e => .error e
      else .error .noProcessor
  | some (StopReason.magic Magic.stop) => ctx.handleStopped .normal env inbox
  | some StopReason.crash => ctx.handleStopped .crash env inbox
  | none => .ok ({ ctx with stop_reason := none }, inbox, [])

/-- The conditional callback installs of `ModuleCtx::try_new`
(`context.rs`, lines 85-110): `X86_Triple_Fault` when
`init_info.faults.contains(&Fault::Triple)`; `Core_Exception` when
`init_info.faults.difference(&HashSet::from([Fault::Triple])).next().is_some()`,
that is, when the fault set has at least one non-triple member. -/
def tryNewCallbacks (faults : List Fault) : List Callback :=
  (if Fault.triple ∈ faults then [Callback.x86TripleFault] else [])
    ++ (if faults.any (fun f => f ≠ Fault.triple) then [Callback.coreException]
        else [])

/-- All callbacks installed during initialization: the lazy `CTX`
initializer (`context.rs`, lines 472-487) unconditionally installs
`Core_Magic_Instruction` and `Core_Simulation_Stopped` before invoking
`ModuleCtx::try_new`, which installs the conditional ones. -/
def ctxCallbacks (faults : List Fault) : List Callback :=
  Callback.magicInstruction :: Callback.simulationStopped :: tryNewCallbacks faults

/-- The state built at the end of `ModuleCtx::try_new` (`context.rs`,
lines 124-137), with the coverage map already initialized. -/
def initialCtx (cfg : InputConfig) (len : Nat) : ModuleCtx :=
  { processor := false
    stop_reason := none
    initialized := false
    prev_loc := 0
    buffer_address := 0
    buffer_size := 0
    init_info := cfg
    map := initMap len }

/-- `ModuleCtx::try_new` (`context.rs`, lines 66-138) after the bootstrap
connection: the first received message must be
`FuzzerEvent::Initialize(info)`, anything else is
`bail!("Expected initialize command")`; then the conditional callbacks are
installed, the coverage map of length `len` is created and initialized,
and `SharedMem` is sent.  `len` stands for the length chosen by
`IpcShm::default()` (the `ipc_shm` crate is not under `src/`; the spec
gives 64 KiB). -/
def tryNew (inbox : List FuzzerEvent) (len : Nat) :
    Except HarnessError (ModuleCtx × List FuzzerEvent ×
      List Callback × List Effect) :=
  match inbox with
  | FuzzerEvent.init cfg :: rest =>
    .ok (initialCtx cfg len, rest, tryNewCallbacks cfg.faults,
      [Effect.send .sharedMem])
  | _ :: _ => .error .unexpectedEvent
  | [] => .error .peerGone

/-- One externally triggered operation on the coordinator: the simulator
attribute setters `set_processor` / `set_stopped_reason` (the latter is
how the classifier callbacks record a pending stop), the
simulation-stopped callback (`handle_stop`), and the branch-trace callback
(`log`). -/
inductive HarnessOp
  | setProcessor
  | setStopReason (r : Option StopReason)
  | handleStop (env : SimEnv) (inbox : List FuzzerEvent)
  | log (pc : Nat)

/-- Effect of one operation on the coordinator state. -/
def step (ctx : ModuleCtx) :
    HarnessOp → Except HarnessError (ModuleCtx × List Effect)
  | .setProcessor => .ok ({ ctx with processor := true }, [])
  | .setStopReason r => .ok ({ ctx with stop_reason := r }, [])
  | .handleStop env inbox =>
    match ctx.handleStop env inbox with
    | .ok (c, _, effs) => .ok (c, effs)
    | .error e => .error e
  | .log pc =>
    match ctx.log pc with
    | .ok c => .ok (c, [])
    | .error e => .error e

/-- A run of the coordinator: operations applied in order, accumulating
the effect trace.  The first error aborts the run (errors are fatal to
the module). -/
def run (ctx : ModuleCtx) : List HarnessOp →
    Except HarnessError (ModuleCtx × List Effect)
  | [] => .ok (ctx, [])
  | op :: ops =>
    match step ctx op with
    | .ok (c1, e1) =>
      match run c1 ops with
      | .ok (c2, e2) => .ok (c2, e1 ++ e2)
      | .error e => .error e
    | .error e => .error e

/-- Number of `save_micro_checkpoint` calls in an effect trace. -/
def countSaves (effs : List Effect) : Nat :=
  effs.count Effect.saveMicroCheckpoint

/-- The width argument of a physical-memory write effect. -/
def effWidth : Effect → Nat
  | .writePhys _ _ w => w
  | _ => 0

/-- ASCII lowercasing of one character, the fragment of Rust
`str::to_lowercase` relevant here (every string comparison below is
against a plain-ASCII literal, and no non-ASCII character lowercases to a
plain-ASCII string of the same shape). -/
def lowerChar (c : Char) : Char :=
  if 65 ≤ c.toNat ∧ c.toNat ≤ 90 then Char.ofNat (c.toNat + 32) else c

/-- `s.to_lowercase()` on ASCII strings. -/
def lowerString (s : String) : String :=
  ⟨s.data.map lowerChar⟩

/-- `impl ToString for TraceMode` (`config/mod.rs`, lines 15-23). -/
def TraceMode.toString : TraceMode → String
  | .once => "once"
  | .hitCount => "hit_count"

/-- `impl FromStr for TraceMode` (`config/mod.rs`, lines 25-35): lowercase
the input, then match `"once"`, `"hit_count"` and the alias `"hitcount"`
in order; anything else is `bail!("No such trace mode {}", s)`. -/
def traceModeFromStr (s : String) : Except HarnessError TraceMode :=
  let l := lowerString s
  if l = "once" then .ok .once
  else if l = "hit_count" then .ok .hitCount
  else if l = "hitcount" then .ok .hitCount
  else .error .noSuchTraceMode

/-! ## Helper lemmas about the chunked injection loop -/

theorem chunksGo_length : ∀ (fuel : Nat) (l : List Nat), l.length ≤ fuel →
    (chunksGo fuel l).length = (l.length + 7) / 8 := by
  intro fuel
  induction fuel with
  | zero =>
    intro l hl
    have : l = [] := List.length_eq_zero.mp (Nat.le_zero.mp hl)
    subst this
    rfl
  | succ n ih =>
    intro l hl
    match l with
    | [] => rfl
    | a :: rest =>
      have hlen : ((a :: rest).drop 8).length ≤ n := by
        simp only [List.length_drop, List.length_cons] at *
        omega
      simp only [chunksGo, List.length_cons, ih _ hlen, List.length_drop,
        List.length_cons]
      omega

theorem chunks8_length (l : List Nat) :
    (chunks8 l).length = (l.length + 7) / 8 :=
  chunksGo_length l.length l (Nat.le_refl _)

theorem chunksGo_get? : ∀ (fuel : Nat) (l : List Nat) (i : Nat),
    l.length ≤ fuel → 8 * i < l.length →
    (chunksGo fuel l).get? i = some ((l.drop (8 * i)).take 8) := by
  intro fuel
  induction fuel with
  | zero =>
    intro l i hl hi
    omega
  | succ n ih =>
    intro l i hl hi
    match l with
    | [] => simp at hi
    | a :: rest =>
      match i with
      | 0 => simp [chunksGo]
      | j + 1 =>
        have hlen : ((a :: rest).drop 8).length ≤ n := by
          simp only [List.length_drop, List.length_cons] at *
          omega
        have hj : 8 * j < ((a :: rest).drop 8).length := by
          simp only [List.length_drop, List.length_cons] at *
          omega
        have heq : (8 : Nat) + 8 * j = 8 * (j + 1) := by omega
        simp only [chunksGo, List.get?_cons_succ, ih _ j hlen hj,
          List.drop_drop, heq]

theorem chunks8_get? (l : List Nat) (i : Nat) (h : 8 * i < l.length) :
    (chunks8 l).get? i = some ((l.drop (8 * i)).take 8) :=
  chunksGo_get? l.length l i (Nat.le_refl _) h

theorem chunksGo_sum_length : ∀ (fuel : Nat) (l : List Nat), l.length ≤ fuel →
    ((chunksGo fuel l).map List.length).sum = l.length := by
  intro fuel
  induction fuel with
  | zero =>
    intro l hl
    have : l = [] := List.length_eq_zero.mp (Nat.le_zero.mp hl)
    subst this
    rfl
  | succ n ih =>
    intro l hl
    match l with
    | [] => rfl
    | a :: rest =>
      have hlen : ((a :: rest).drop 8).length ≤ n := by
        simp only [List.length_drop, List.length_cons] at *
        omega
      simp only [chunksGo, List.map_cons, List.sum_cons, ih _ hlen,
        List.length_drop, List.length_take, List.length_cons]
      omega

theorem chunks8_sum_length (l : List Nat) :
    ((chunks8 l).map List.length).sum = l.length :=
  chunksGo_sum_length l.length l (Nat.le_refl _)

theorem injectFrom_length (base : Nat) :
    ∀ (j : Nat) (cs : List (List Nat)), (injectFrom base j cs).length = cs.length := by
  intro j cs
  induction cs generalizing j with
  | nil => rfl
  | cons c cs ih => simp [injectFrom, ih]

theorem injectFrom_get? (base : Nat) :
    ∀ (cs : List (List Nat)) (j i : Nat),
    (injectFrom base j cs).get? i = (cs.get? i).map (fun c =>
      Effect.writePhys ((base + 8 * (j + i)) % (2 ^ 64))
        (fromLeBytes (pad8 c)) c.length) := by
  intro cs
  induction cs with
  | nil => intro j i; simp [injectFrom]
  | cons c cs ih =>
    intro j i
    match i with
    | 0 => simp [injectFrom]
    | k + 1 =>
      have heq : j + (k + 1) = (j + 1) + k := by omega
      simp only [injectFrom, List.get?_cons_succ, ih (j + 1) k, heq]

theorem injectWrites_length (base : Nat) (input : List Nat) :
    (injectWrites base input).length = (input.length + 7) / 8 := by
  unfold injectWrites
  rw [injectFrom_length, chunks8_length]

theorem injectWrites_get? (base : Nat) (input : List Nat) (i : Nat)
    (h : 8 * i < input.length) :
    (injectWrites base input).get? i =
      some (Effect.writePhys ((base + 8 * i) % (2 ^ 64))
        (fromLeBytes (pad8 ((input.drop (8 * i)).take 8)))
        ((input.drop (8 * i)).take 8).length) := by
  unfold injectWrites
  rw [injectFrom_get?, chunks8_get? _ _ h]
  simp

theorem injectWrites_mem {base : Nat} {input : List Nat} {e : Effect}
    (he : e ∈ injectWrites base input) :
    ∃ i, 8 * i < input.length ∧
      e = Effect.writePhys ((base + 8 * i) % (2 ^ 64))
        (fromLeBytes (pad8 ((input.drop (8 * i)).take 8)))
        ((input.drop (8 * i)).take 8).length := by
  obtain ⟨n, hn⟩ := List.mem_iff_get?.mp he
  have hlt : n < (injectWrites base input).length := by
    by_contra hge
    rw [List.get?_eq_none.mpr (Nat.le_of_not_lt hge)] at hn
    exact Option.noConfusion hn
  rw [injectWrites_length] at hlt
  have h8 : 8 * n < input.length := by omega
  rw [injectWrites_get? _ _ _ h8] at hn
  exact ⟨n, h8, (Option.some.inj hn).symm⟩

theorem injectFrom_count_save (base : Nat) :
    ∀ (j : Nat) (cs : List (List Nat)), countSaves (injectFrom base j cs) = 0 := by
  intro j cs
  induction cs generalizing j with
  | nil => rfl
  | cons c cs ih =>
    have hih := ih (j + 1)
    simp only [injectFrom, countSaves, List.count_cons] at *
    rw [hih]
    simp

theorem injectWrites_count_save (base : Nat) (input : List Nat) :
    countSaves (injectWrites base input) = 0 :=
  injectFrom_count_save base 0 (chunks8 input)

theorem injectFrom_width_sum (base : Nat) :
    ∀ (j : Nat) (cs : List (List Nat)),
    ((injectFrom base j cs).map effWidth).sum = (cs.map List.length).sum := by
  intro j cs
  induction cs generalizing j with
  | nil => rfl
  | cons c cs ih => simp [injectFrom, effWidth, ih]

theorem injectWrites_width_sum (base : Nat) (input : List Nat) :
    ((injectWrites base input).map effWidth).sum = input.length := by
  unfold injectWrites
  rw [injectFrom_width_sum, chunks8_sum_length]

/-! ## Inversion lemmas for the stop-handling branches -/

theorem handleRun_ok {ctx : ModuleCtx} {inbox : List FuzzerEvent}
    {out : ModuleCtx × List FuzzerEvent × List Effect}
    (h : ctx.handleRun inbox = .ok out) :
    ∃ input rest, inbox = FuzzerEvent.run input :: rest ∧
      out = ({ ctx with stop_reason := none }, rest,
        injectWrites ctx.buffer_address input ++ [Effect.resumeSimulation]) := by
  match inbox with
  | [] => simp [ModuleCtx.handleRun] at h
  | FuzzerEvent.init cfg :: rest => simp [ModuleCtx.handleRun] at h
  | FuzzerEvent.reset :: rest => simp [ModuleCtx.handleRun] at h
  | FuzzerEvent.stop :: rest => simp [ModuleCtx.handleRun] at h
  | FuzzerEvent.run input :: rest =>
    simp only [ModuleCtx.handleRun, Except.ok.injEq] at h
    exact ⟨input, rest, rfl, h.symm⟩

theorem handleStopped_ok {ctx : ModuleCtx} {ty : StopType} {env : SimEnv}
    {inbox : List FuzzerEvent}
    {out : ModuleCtx × List FuzzerEvent × List Effect}
    (h : ctx.handleStopped ty env inbox = .ok out) :
    env.sinfo_size = 1 ∧ ctx.processor = true ∧
    ∃ input rest pre,
      ((inbox = FuzzerEvent.reset :: FuzzerEvent.run input :: rest ∧
          pre = [Effect.restoreMicroCheckpoint 0, Effect.discardFuture]) ∨
       (inbox = FuzzerEvent.stop :: FuzzerEvent.run input :: rest ∧ pre = [])) ∧
      out = ({ ctx with stop_reason := none }, rest,
        Effect.send (.stopped ty) :: pre ++ Effect.send .ready ::
          (injectWrites ctx.buffer_address input ++ [Effect.resumeSimulation])) := by
  unfold ModuleCtx.handleStopped at h
  by_cases hs : env.sinfo_size = 1
  · simp only [hs, if_true] at h
    refine ⟨hs, ?_⟩
    match inbox with
    | [] => simp at h
    | FuzzerEvent.init cfg :: rest2 => simp at h
    | FuzzerEvent.run i :: rest2 => simp at h
    | FuzzerEvent.reset :: rest2 =>
      by_cases hp : ctx.processor
      · simp only [hp, if_true] at h
        refine ⟨hp, ?_⟩
        cases hrun : ctx.handleRun rest2 with
        | error e => rw [hrun] at h; simp at h
        | ok o =>
          rw [hrun] at h
          obtain ⟨input, rest, hin, ho⟩ := handleRun_ok hrun
          obtain ⟨c, r, effs⟩ := o
          simp only [Except.ok.injEq] at h
          simp only [Prod.mk.injEq] at ho
          refine ⟨input, rest, _, Or.inl ⟨by rw [hin], rfl⟩, ?_⟩
          rw [← h]
          simp [ho.1, ho.2.1, ho.2.2]
      · simp [hp] at h
    | FuzzerEvent.stop :: rest2 =>
      by_cases hp : ctx.processor
      · simp only [hp, if_true] at h
        refine ⟨hp, ?_⟩
        cases hrun : ctx.handleRun rest2 with
        | error e => rw [hrun] at h; simp at h
        | ok o =>
          rw [hrun] at h
          obtain ⟨input, rest, hin, ho⟩ := handleRun_ok hrun
          obtain ⟨c, r, effs⟩ := o
          simp only [Except.ok.injEq] at h
          simp only [Prod.mk.injEq] at ho
          refine ⟨input, rest, _, Or.inr ⟨by rw [hin], rfl⟩, ?_⟩
          rw [← h]
          simp [ho.1, ho.2.1, ho.2.2]
      · simp [hp] at h
  · simp [hs] at h

theorem handleStop_start_init {ctx : ModuleCtx} {env : SimEnv}
    {inbox : List FuzzerEvent}
    (h1 : ctx.stop_reason = some (StopReason.magic Magic.start))
    (h2 : ctx.initialized = true) :
    ctx.handleStop env inbox =
      .ok ({ ctx with stop_reason := none }, inbox, [Effect.resumeSimulation]) := by
  unfold ModuleCtx.handleStop
  rw [h1]
  simp [h2]

theorem handleStop_start_uninit {ctx : ModuleCtx} {env : SimEnv}
    {inbox : List FuzzerEvent}
    {out : ModuleCtx × List FuzzerEvent × List Effect}
    (h1 : ctx.stop_reason = some (StopReason.magic Magic.start))
    (h2 : ctx.initialized = false)
    (h : ctx.handleStop env inbox = .ok out) :
    ctx.processor = true ∧
    ∃ input rest, inbox = FuzzerEvent.run input :: rest ∧
      out = ({ ctx with
          buffer_address := env.rsi
          buffer_size := env.rdi
          initialized := true
          stop_reason := none }, rest,
        Effect.saveMicroCheckpoint :: Effect.send .ready ::
          (injectWrites env.rsi input ++ [Effect.resumeSimulation])) := by
  unfold ModuleCtx.handleStop at h
  rw [h1] at h
  simp only [h2, Bool.false_eq_true, if_false] at h
  by_cases hp : ctx.processor
  · simp only [hp, if_true] at h
    refine ⟨hp, ?_⟩
    split at h
    · rename_i c r effs hrun
      obtain ⟨input, rest, hin, ho⟩ := handleRun_ok hrun
      simp only [Prod.mk.injEq] at ho
      refine ⟨input, rest, hin, ?_⟩
      simp only [Except.ok.injEq] at h
      rw [← h]
      simp_all
    · simp at h
  · simp [hp] at h

theorem countSaves_nil : countSaves [] = 0 := rfl

theorem countSaves_cons (e : Effect) (l : List Effect) :
    countSaves (e :: l) =
      countSaves l + (if e = Effect.saveMicroCheckpoint then 1 else 0) := by
  simp [countSaves, List.count_cons]

theorem countSaves_append (l1 l2 : List Effect) :
    countSaves (l1 ++ l2) = countSaves l1 + countSaves l2 := by
  simp [countSaves, List.count_append]

theorem log_ok {ctx : ModuleCtx} {pc : Nat} {c : ModuleCtx}
    (h : ctx.log pc = .ok c) :
    c.prev_loc = ctx.prev_loc / 2 ∧ c.processor = ctx.processor ∧
    c.stop_reason = ctx.stop_reason ∧ c.initialized = ctx.initialized ∧
    c.buffer_address = ctx.buffer_address ∧ c.buffer_size = ctx.buffer_size ∧
    c.init_info = ctx.init_info := by
  simp only [ModuleCtx.log] at h
  split at h
  · exact Except.noConfusion h
  · split at h
    · exact Except.noConfusion h
    · simp only [Except.ok.injEq] at h
      rw [← h]
      exact ⟨rfl, rfl, rfl, rfl, rfl, rfl, rfl⟩

/-- Combined state/effect invariant of one `handle_stop` call: `prev_loc`,
the coverage map, the frozen config and the processor handle are untouched;
at most one checkpoint save happens, none at all once `initialized` is
`true`, and a save forces `initialized` to become `true`. -/
theorem handleStop_state {ctx : ModuleCtx} {env : SimEnv}
    {inbox : List FuzzerEvent} {c : ModuleCtx} {r : List FuzzerEvent}
    {effs : List Effect}
    (h : ctx.handleStop env inbox = .ok (c, r, effs)) :
    c.prev_loc = ctx.prev_loc ∧ c.map = ctx.map ∧
    c.init_info = ctx.init_info ∧ c.processor = ctx.processor ∧
    countSaves effs ≤ 1 ∧
    (ctx.initialized = true → c.initialized = true ∧ countSaves effs = 0) ∧
    (c.initialized = false → ctx.initialized = false ∧ countSaves effs = 0) := by
  cases hsr : ctx.stop_reason with
  | none =>
    unfold ModuleCtx.handleStop at h
    rw [hsr] at h
    simp only [Except.ok.injEq, Prod.mk.injEq] at h
    obtain ⟨hc, _, heff⟩ := h
    rw [← hc, ← heff]
    simp [countSaves_nil]
  | some reason =>
    cases reason with
    | crash =>
      unfold ModuleCtx.handleStop at h
      rw [hsr] at h
      obtain ⟨_, _, input, rest, pre, hpre, hout⟩ := handleStopped_ok h
      simp only [Prod.mk.injEq] at hout
      obtain ⟨hc, _, heff⟩ := hout
      subst hc heff
      rcases hpre with ⟨_, hp⟩ | ⟨_, hp⟩ <;>
        subst hp <;>
        simp [countSaves_cons, countSaves_append, countSaves_nil,
          injectWrites_count_save]
    | magic m =>
      cases m with
      | stop =>
        unfold ModuleCtx.handleStop at h
        rw [hsr] at h
        obtain ⟨_, _, input, rest, pre, hpre, hout⟩ := handleStopped_ok h
        simp only [Prod.mk.injEq] at hout
        obtain ⟨hc, _, heff⟩ := hout
        subst hc heff
        rcases hpre with ⟨_, hp⟩ | ⟨_, hp⟩ <;>
          subst hp <;>
          simp [countSaves_cons, countSaves_append, countSaves_nil,
            injectWrites_count_save]
      | start =>
        by_cases hinit : ctx.initialized
        · rw [handleStop_start_init hsr hinit] at h
          simp only [Except.ok.injEq, Prod.mk.injEq] at h
          obtain ⟨hc, _, heff⟩ := h
          rw [← hc, ← heff]
          simp [hinit, countSaves_cons, countSaves_nil]
        · have hinit' : ctx.initialized = false := Bool.not_eq_true _ |>.mp hinit
          obtain ⟨_, input, rest, _, hout⟩ :=
            handleStop_start_uninit hsr hinit' h
          simp only [Prod.mk.injEq] at hout
          obtain ⟨hc, _, heff⟩ := hout
          subst hc heff
          simp [hinit', countSaves_cons, countSaves_append, countSaves_nil,
            injectWrites_count_save]

/-- The per-operation invariant used for the whole-run arguments. -/
theorem step_inv {ctx : ModuleCtx} {op : HarnessOp} {c : ModuleCtx}
    {effs : List Effect} (h : step ctx op = .ok (c, effs)) :
    countSaves effs ≤ 1 ∧
    (ctx.initialized = true → c.initialized = true ∧ countSaves effs = 0) ∧
    (c.initialized = false → countSaves effs = 0) ∧
    (ctx.prev_loc = 0 → c.prev_loc = 0) := by
  cases op with
  | setProcessor =>
    simp only [step, Except.ok.injEq, Prod.mk.injEq] at h
    obtain ⟨hc, heff⟩ := h
    rw [← hc, ← heff]
    simp [countSaves_nil]
  | setStopReason rr =>
    simp only [step, Except.ok.injEq, Prod.mk.injEq] at h
    obtain ⟨hc, heff⟩ := h
    rw [← hc, ← heff]
    simp [countSaves_nil]
  | handleStop env inbox =>
    simp only [step] at h
    split at h
    · rename_i c' r' effs' hstop
      simp only [Except.ok.injEq, Prod.mk.injEq] at h
      obtain ⟨hc, heff⟩ := h
      obtain ⟨hprev, _, _, _, hle, hi1, hi2⟩ := handleStop_state hstop
      subst hc heff
      refine ⟨hle, ?_, ?_, ?_⟩
      · intro ht; exact hi1 ht
      · intro hf; exact (hi2 hf).2
      · intro hz; rw [hprev]; exact hz
    · exact Except.noConfusion h
  | log pc =>
    simp only [step] at h
    split at h
    · rename_i c' hlog
      simp only [Except.ok.injEq, Prod.mk.injEq] at h
      obtain ⟨hc, heff⟩ := h
      obtain ⟨hprev, _, _, hinit, _⟩ := log_ok hlog
      subst hc heff
      refine ⟨by simp [countSaves_nil], ?_, ?_, ?_⟩
      · intro ht; rw [hinit]; simp [ht, countSaves_nil]
      · intro _; simp [countSaves_nil]
      · intro hz; rw [hprev, hz]
    · exact Except.noConfusion h

/-- Whole-run invariant: over any successful run, at most one checkpoint
save occurs (none at all from an already-initialized state), and a zero
`prev_loc` stays zero. -/
theorem run_inv {ctx : ModuleCtx} {ops : List HarnessOp}
    {out : ModuleCtx × List Effect} (h : run ctx ops = .ok out) :
    countSaves out.2 ≤ 1 ∧
    (ctx.initialized = true → countSaves out.2 = 0) ∧
    (ctx.prev_loc = 0 → out.1.prev_loc = 0) ∧
    (ctx.initialized = true → out.1.initialized = true) := by
  induction ops generalizing ctx out with
  | nil =>
    simp only [run, Except.ok.injEq] at h
    rw [← h]
    simp [countSaves_nil]
  | cons op ops ih =>
    simp only [run] at h
    split at h
    · rename_i c1 e1 hstep
      split at h
      · rename_i c2 e2 hrest
        simp only [Except.ok.injEq] at h
        rw [← h]
        obtain ⟨hs1, hs2, hs3, hs4⟩ := step_inv hstep
        have ihr := ih hrest
        dsimp only at ihr
        obtain ⟨hr1, hr2, hr3, hr4⟩ := ihr
        dsimp only
        simp only [countSaves_append]
        refine ⟨?_, ?_, ?_, ?_⟩
        · by_cases hc1 : c1.initialized
          · have := hr2 hc1
            omega
          · have := hs3 (Bool.not_eq_true _ |>.mp hc1)
            omega
        · intro ht
          obtain ⟨hct, hz⟩ := hs2 ht
          have := hr2 hct
          omega
        · intro hz
          exact hr3 (hs4 hz)
        · intro ht
          exact hr4 (hs2 ht).1
      · exact Except.noConfusion h
    · exact Except.noConfusion h

/-! ## Concrete fixtures used by witnesses and counterexamples -/

/-- A minimal frozen configuration. -/
def cfg0 : InputConfig := { faults := [], trace_mode := TraceMode.hitCount }

/-- A register / attribute environment with the guest contract of spec
scenario S1: `rsi = 0x4000`, `rdi = 16`, one `state_info` entry. -/
def env1 : SimEnv := { rsi := 0x4000, rdi := 16, sinfo_size := 1 }

/-- A running harness state over the 8-byte map of spec scenario S4. -/
def ctxS4 : ModuleCtx :=
  { processor := true
    stop_reason := none
    initialized := true
    prev_loc := 0
    buffer_address := 0x4000
    buffer_size := 16
    init_info := cfg0
    map := initMap 8 }

/-! ## C1 -/

/-- C1: the claim states that `ModuleCtx::log` increments by one the
coverage byte at `cur_loc ^ prev_loc` and then sets `prev_loc` to
`cur_loc >> 1`.  The code instead writes the byte it read at `cur_loc`
unchanged to index `cur_loc ^ prev_loc` (no increment) and shifts the old
`prev_loc` right (`self.prev_loc >>= 1`) instead of assigning
`cur_loc >> 1`.  At the spec's own S4 input (`N = 8`, `pc = 0x100`,
`prev_loc = 0`, so `cur_loc = 0`) the map is returned completely
unchanged, with the byte at index 0 still 0 where the claim demands 1;
and from `prev_loc = 4` the byte landing at index 4 is the copy of
`map[0] = 0` (the claim demands `map[4] + 1 = 5`) while `prev_loc`
becomes `4 >> 1 = 2` (the claim demands `cur_loc >> 1 = 0`). -/
theorem c1_log_copies_instead_of_incrementing :
    (ctxS4.log 0x100 = .ok ctxS4) ∧
    (ctxS4.map.get? 0 = some 0) ∧
    ({ ctxS4 with prev_loc := 4 }.log 0x100 =
      .ok { ctxS4 with prev_loc := 2, map := [0, 1, 2, 3, 0, 5, 6, 7] }) := by
  refine ⟨by decide, by decide, by decide⟩

/-! ## C2 -/

/-- C2: immediately after a `Reset` message is handled by the stop handler
(for both the `Magic::Stop` and the `Crash` stop reasons), `prev_loc`
equals 0.  The handler itself never writes `prev_loc`; the property holds
because `prev_loc` is invariantly 0 in every reachable state — it starts
at 0 and the only assignment anywhere is `self.prev_loc >>= 1`. -/
theorem c2_prev_loc_zero_after_reset
    (cfg : InputConfig) (len : Nat) (ops : List HarnessOp)
    (ctx1 : ModuleCtx) (tr : List Effect) (env : SimEnv)
    (inbox rest : List FuzzerEvent) (reason : StopReason)
    (ctx2 : ModuleCtx) (effs : List Effect)
    (hrun : run (initialCtx cfg len) ops = .ok (ctx1, tr))
    (hreason : ctx1.stop_reason = some reason)
    (hkind : reason = StopReason.magic Magic.stop ∨ reason = StopReason.crash)
    (hreset : inbox.head? = some FuzzerEvent.reset)
    (hstop : ctx1.handleStop env inbox = .ok (ctx2, rest, effs)) :
    ctx2.prev_loc = 0 := by
  have h1 := run_inv hrun
  have hz : ctx1.prev_loc = 0 := h1.2.2.1 rfl
  have h2 := handleStop_state hstop
  rw [h2.1]
  exact hz

/-- The state reached before the stop handler runs in the `c2_witness`
scenario. -/
def c2ctx1 : ModuleCtx :=
  { initialCtx cfg0 8 with
    processor := true
    stop_reason := some (StopReason.magic Magic.stop) }

/-- The effect trace of the `c2_witness` stop handling. -/
def c2effs : List Effect :=
  [Effect.send (.stopped .normal), Effect.restoreMicroCheckpoint 0,
   Effect.discardFuture, Effect.send .ready, Effect.resumeSimulation]

theorem c2_witness :
    (run (initialCtx cfg0 8)
      [HarnessOp.setProcessor,
       HarnessOp.setStopReason (some (StopReason.magic Magic.stop))] =
        .ok (c2ctx1, [])) ∧
    (c2ctx1.handleStop env1 [FuzzerEvent.reset, FuzzerEvent.run []] =
      .ok ({ c2ctx1 with stop_reason := none }, [], c2effs)) ∧
    ({ c2ctx1 with stop_reason := none } : ModuleCtx).prev_loc = 0 := by
  refine ⟨by decide, by decide, ?_⟩
  exact c2_prev_loc_zero_after_reset cfg0 8
    [HarnessOp.setProcessor,
     HarnessOp.setStopReason (some (StopReason.magic Magic.stop))]
    c2ctx1 [] env1 [FuzzerEvent.reset, FuzzerEvent.run []] []
    (StopReason.magic Magic.stop) { c2ctx1 with stop_reason := none } c2effs
    (by decide) (by decide) (Or.inl rfl) (by decide) (by decide)

/-! ## C3 -/

/-- C3: the claim states that after `Stopped(_)` has been sent, receiving
`Stop` makes the handler return without restoring and without sending any
further message.  The code indeed does not restore, but the `Stop` arm of
the `match` falls through to `self.tx.send(SimicsEvent::Ready)?` and a
further blocking `recv()` that accepts a `Run` and resumes the simulator:
in both the `Magic::Stop` and `Crash` branches, handling `[Stop, Run []]`
produces a `Ready` send (and a resume) after the `Stop`, contradicting
the claim, while `restore_micro_checkpoint` indeed never appears. -/
theorem c3_stop_still_sends_ready :
    ({ ctxS4 with stop_reason := some (StopReason.magic Magic.stop) }.handleStop
        env1 [FuzzerEvent.stop, FuzzerEvent.run []] =
      .ok ({ ctxS4 with stop_reason := none }, [],
        [Effect.send (.stopped .normal), Effect.send .ready,
         Effect.resumeSimulation])) ∧
    ({ ctxS4 with stop_reason := some StopReason.crash }.handleStop
        env1 [FuzzerEvent.stop, FuzzerEvent.run []] =
      .ok ({ ctxS4 with stop_reason := none }, [],
        [Effect.send (.stopped .crash), Effect.send .ready,
         Effect.resumeSimulation])) ∧
    Effect.send .ready ∈
      [Effect.send (SimicsEvent.stopped StopType.normal), Effect.send .ready,
       Effect.resumeSimulation] ∧
    Effect.restoreMicroCheckpoint 0 ∉
      [Effect.send (SimicsEvent.stopped StopType.normal), Effect.send .ready,
       Effect.resumeSimulation] := by
  refine ⟨by decide, by decide, by decide, by decide⟩

/-! ## C4 -/

/-- The uninitialized state of the `c4_counterexample` first-start
scenario. -/
def c4ctx : ModuleCtx :=
  { ctxS4 with
    stop_reason := some (StopReason.magic Magic.start)
    initialized := false
    buffer_address := 0
    buffer_size := 0 }

/-- The zero-capacity environment of the `c4_counterexample`: the guest
advertises `rdi = 0`, so `buffer_size` becomes 0. -/
def c4env : SimEnv := { rsi := 0x4000, rdi := 0, sinfo_size := 1 }

/-- C4 is false as stated: with `buffer_size = 0` and the one-byte input
`[0xAA]`, the injection loop still writes one byte (not
`min(len(input), buffer_size) = 0`), and that write targets
`buffer_address = 0x4000`, which is at `buffer_address + buffer_size`.
The loop never compares the input length with `buffer_size`. -/
theorem c4_counterexample :
    (c4ctx.handleStop c4env [FuzzerEvent.run [0xAA]] =
      .ok ({ c4ctx with
          buffer_address := 0x4000, buffer_size := 0,
          initialized := true, stop_reason := none }, [],
        [Effect.saveMicroCheckpoint, Effect.send .ready,
         Effect.writePhys 0x4000 0xAA 1, Effect.resumeSimulation])) ∧
    Effect.writePhys 0x4000 0xAA 1 ∈
      [Effect.saveMicroCheckpoint, Effect.send SimicsEvent.ready,
       Effect.writePhys 0x4000 0xAA 1, Effect.resumeSimulation] ∧
    (0x4000 + 0 ≤ 0x4000) ∧
    (((injectWrites 0x4000 [0xAA]).map effWidth).sum = 1) ∧
    (min 1 0 = 0) := by
  refine ⟨by decide, by decide, by decide, by decide, by decide⟩

/-- C4 (amended): the injection loop writes exactly `len(input)` bytes
regardless of `buffer_size` — truncation never happens — and (absent
`u64` wraparound) every written byte lies below
`buffer_address + len(input)`; consequently the claimed bound
`buffer_address + buffer_size` holds exactly when
`len(input) ≤ buffer_size`. -/
theorem c4_no_truncation_bound
    (base size : Nat) (input : List Nat)
    (hov : base + input.length ≤ 2 ^ 64) :
    (((injectWrites base input).map effWidth).sum = input.length) ∧
    (∀ a v w, Effect.writePhys a v w ∈ injectWrites base input →
      a + w ≤ base + input.length) ∧
    (input.length ≤ size →
      ∀ a v w, Effect.writePhys a v w ∈ injectWrites base input →
        a + w ≤ base + size) := by
  have hmem : ∀ a v w, Effect.writePhys a v w ∈ injectWrites base input →
      a + w ≤ base + input.length := by
    intro a v w hw
    obtain ⟨i, hi, he⟩ := injectWrites_mem hw
    have hmod : (base + 8 * i) % (2 ^ 64) = base + 8 * i :=
      Nat.mod_eq_of_lt (by omega)
    rw [hmod] at he
    have hwidth : ((input.drop (8 * i)).take 8).length =
        min 8 (input.length - 8 * i) := by
      simp [List.length_take, List.length_drop]
    simp only [Effect.writePhys.injEq] at he
    obtain ⟨ha, _, hw'⟩ := he
    rw [ha, hw', hwidth]
    omega
  refine ⟨injectWrites_width_sum base input, hmem, ?_⟩
  intro hle a v w hw
  have := hmem a v w hw
  omega

/-- Input used by the C4 and C6 witnesses: nine bytes, so two chunks with
final width 1. -/
def w9input : List Nat := [1, 2, 3, 4, 5, 6, 7, 8, 9]

theorem c4_witness :
    (((injectWrites 0x4000 w9input).map effWidth).sum = 9) ∧
    (0x4008 + 1 ≤ 0x4000 + 16) := by
  have H := c4_no_truncation_bound 0x4000 16 w9input (by decide)
  exact ⟨H.1, H.2.2 (by decide) 0x4008 9 1 (by decide)⟩

/-! ## C5 -/

/-- C5 is false as stated: the init loop writes
`(i % u8::MAX as usize) as u8` and `u8::MAX` is 255, not 256; at index
255 the map holds `255 % 255 = 0` where the claim (`i mod 256`) demands
255. -/
theorem c5_counterexample :
    ((initMap 256).get? 255 = some 0) ∧ ((255 : Nat) % 256 = 255) := by
  refine ⟨by decide, by decide⟩

/-- C5 (amended): after bootstrap creates the coverage map, every byte at
index `i` equals `i mod 255` (not `i mod 256`). -/
theorem c5_init_pattern (len i : Nat) (h : i < len) :
    (initMap len).get? i = some (i % 255) := by
  unfold initMap
  rw [List.get?_map, List.get?_range h]
  rfl

theorem c5_witness : (initMap 8).get? 3 = some 3 :=
  c5_init_pattern 8 3 (by decide)

/-! ## C6 -/

/-- C6: for a received `Run(input)` with `len(input) ≤ buffer_size` (and
no `u64` address wraparound), the injection loop performs exactly
`⌈len(input)/8⌉` physical-memory writes; the `i`-th write targets
`buffer_address + 8*i` with the 64-bit little-endian value of the `i`-th
8-byte chunk zero-padded on the right, its width being the chunk's
unpadded length, so the final width is `len(input) mod 8` when nonzero;
an empty input performs no write and just resumes the simulator. -/
theorem c6_injection_layout
    (ctx : ModuleCtx) (input : List Nat) (rest : List FuzzerEvent)
    (ctx2 : ModuleCtx) (rest2 : List FuzzerEvent) (effs : List Effect)
    (hle : input.length ≤ ctx.buffer_size)
    (hov : ctx.buffer_address + 8 * ((input.length + 7) / 8) ≤ 2 ^ 64)
    (hrun : ctx.handleRun (FuzzerEvent.run input :: rest) =
      .ok (ctx2, rest2, effs)) :
    (effs = injectWrites ctx.buffer_address input ++
      [Effect.resumeSimulation]) ∧
    ((injectWrites ctx.buffer_address input).length =
      (input.length + 7) / 8) ∧
    (∀ i, 8 * i < input.length →
      (injectWrites ctx.buffer_address input).get? i =
        some (Effect.writePhys (ctx.buffer_address + 8 * i)
          (fromLeBytes (pad8 ((input.drop (8 * i)).take 8)))
          ((input.drop (8 * i)).take 8).length)) ∧
    (input.length % 8 ≠ 0 →
      ((input.drop (8 * ((input.length + 7) / 8 - 1))).take 8).length =
        input.length % 8) ∧
    (input = [] → effs = [Effect.resumeSimulation]) := by
  obtain ⟨input', rest', hin, hout⟩ := handleRun_ok hrun
  have hin' : input' = input := by
    injection hin with h1 _
    injection h1 with h2
    exact h2.symm
  rw [hin'] at hout
  simp only [Prod.mk.injEq] at hout
  obtain ⟨_, _, heff⟩ := hout
  refine ⟨heff, injectWrites_length _ _, ?_, ?_, ?_⟩
  · intro i hi
    rw [injectWrites_get? _ _ _ hi]
    have hceil : input.length ≤ 8 * ((input.length + 7) / 8) := by omega
    have hmod : (ctx.buffer_address + 8 * i) % (2 ^ 64) =
        ctx.buffer_address + 8 * i := Nat.mod_eq_of_lt (by omega)
    rw [hmod]
  · intro hnz
    simp only [List.length_take, List.length_drop]
    omega
  · intro hempty
    subst hempty
    rw [heff]
    rfl

/-- The running state of the C6 witness (`buffer_address = 0x4000`,
`buffer_size = 16`). -/
def c6wctx : ModuleCtx :=
  { ctxS4 with stop_reason := some (StopReason.magic Magic.stop) }

theorem c6_witness :
    (c6wctx.handleRun [FuzzerEvent.run w9input] =
      .ok ({ c6wctx with stop_reason := none }, [],
        [Effect.writePhys 0x4000 0x0807060504030201 8,
         Effect.writePhys 0x4008 9 1, Effect.resumeSimulation])) ∧
    ((injectWrites 0x4000 w9input).length = 2) ∧
    ((injectWrites 0x4000 w9input).get? 1 =
      some (Effect.writePhys 0x4008 9 1)) := by
  have H := c6_injection_layout c6wctx w9input []
    { c6wctx with stop_reason := none } []
    [Effect.writePhys 0x4000 0x0807060504030201 8,
     Effect.writePhys 0x4008 9 1, Effect.resumeSimulation]
    (by decide) (by decide) (by decide)
  exact ⟨by decide, H.2.1, H.2.2.1 1 (by decide)⟩

/-! ## C7 -/

/-- C7 is false only in its final clause: a `Magic::Start` stop handled
with `initialized = true` does resume and leaves every field alone —
except that the common epilogue `self.stop_reason = None`
(`context.rs`, line 394) clears the pending stop reason, so the post
state differs from the pre state. -/
theorem c7_counterexample :
    ({ ctxS4 with stop_reason := some (StopReason.magic Magic.start)
        }.handleStop env1 [] =
      .ok ({ ctxS4 with stop_reason := none }, [],
        [Effect.resumeSimulation])) ∧
    ({ ctxS4 with stop_reason := none } : ModuleCtx) ≠
      { ctxS4 with stop_reason := some (StopReason.magic Magic.start) } := by
  refine ⟨by decide, by decide⟩

/-- C7 (amended): over any run from the freshly bootstrapped state the
`origin` micro-checkpoint is saved at most once; it is saved exactly when
a `Magic::Start` stop is handled with `initialized = false`, and that
same handling sets `buffer_address` from `rsi`, `buffer_size` from `rdi`
and `initialized` to `true`; every later `Magic::Start` stop
(`initialized = true`) only resumes the simulator and changes no state
field other than clearing the pending `stop_reason` to `None`. -/
theorem c7_origin_snapshot_once :
    (∀ (cfg : InputConfig) (len : Nat) (ops : List HarnessOp)
        (out : ModuleCtx × List Effect),
      run (initialCtx cfg len) ops = .ok out → countSaves out.2 ≤ 1) ∧
    (∀ (ctx : ModuleCtx) (env : SimEnv) (inbox : List FuzzerEvent)
        (ctx2 : ModuleCtx) (rest : List FuzzerEvent) (effs : List Effect),
      ctx.stop_reason = some (StopReason.magic Magic.start) →
      ctx.initialized = false →
      ctx.handleStop env inbox = .ok (ctx2, rest, effs) →
      countSaves effs = 1 ∧ ctx2.buffer_address = env.rsi ∧
        ctx2.buffer_size = env.rdi ∧ ctx2.initialized = true) ∧
    (∀ (ctx : ModuleCtx) (env : SimEnv) (inbox : List FuzzerEvent)
        (ctx2 : ModuleCtx) (rest : List FuzzerEvent) (effs : List Effect),
      ¬(ctx.stop_reason = some (StopReason.magic Magic.start) ∧
          ctx.initialized = false) →
      ctx.handleStop env inbox = .ok (ctx2, rest, effs) →
      countSaves effs = 0) ∧
    (∀ (ctx : ModuleCtx) (env : SimEnv) (inbox : List FuzzerEvent)
        (ctx2 : ModuleCtx) (rest : List FuzzerEvent) (effs : List Effect),
      ctx.stop_reason = some (StopReason.magic Magic.start) →
      ctx.initialized = true →
      ctx.handleStop env inbox = .ok (ctx2, rest, effs) →
      effs = [Effect.resumeSimulation] ∧
        ctx2 = { ctx with stop_reason := none }) := by
  refine ⟨?_, ?_, ?_, ?_⟩
  · intro cfg len ops out h
    exact (run_inv h).1
  · intro ctx env inbox ctx2 rest effs h1 h2 h
    obtain ⟨_, input, rest', _, hout⟩ := handleStop_start_uninit h1 h2 h
    simp only [Prod.mk.injEq] at hout
    obtain ⟨hc, _, heff⟩ := hout
    subst hc heff
    refine ⟨?_, rfl, rfl, rfl⟩
    simp [countSaves_cons, countSaves_append, countSaves_nil,
      injectWrites_count_save]
  · intro ctx env inbox ctx2 rest effs hnot h
    cases hsr : ctx.stop_reason with
    | none =>
      unfold ModuleCtx.handleStop at h
      rw [hsr] at h
      simp only [Except.ok.injEq, Prod.mk.injEq] at h
      rw [← h.2.2]
      rfl
    | some reason =>
      cases reason with
      | crash =>
        unfold ModuleCtx.handleStop at h
        rw [hsr] at h
        obtain ⟨_, _, input, rest', pre, hpre, hout⟩ := handleStopped_ok h
        simp only [Prod.mk.injEq] at hout
        obtain ⟨_, _, heff⟩ := hout
        subst heff
        rcases hpre with ⟨_, hp⟩ | ⟨_, hp⟩ <;>
          subst hp <;>
          simp [countSaves_cons, countSaves_append, countSaves_nil,
            injectWrites_count_save]
      | magic m =>
        cases m with
        | stop =>
          unfold ModuleCtx.handleStop at h
          rw [hsr] at h
          obtain ⟨_, _, input, rest', pre, hpre, hout⟩ := handleStopped_ok h
          simp only [Prod.mk.injEq] at hout
          obtain ⟨_, _, heff⟩ := hout
          subst heff
          rcases hpre with ⟨_, hp⟩ | ⟨_, hp⟩ <;>
            subst hp <;>
            simp [countSaves_cons, countSaves_append, countSaves_nil,
              injectWrites_count_save]
        | start =>
          have hinit : ctx.initialized = true := by
            rcases Bool.eq_false_or_eq_true ctx.initialized with ht | hf
            · exact ht
            · exact absurd ⟨hsr, hf⟩ hnot
          rw [handleStop_start_init hsr hinit] at h
          simp only [Except.ok.injEq, Prod.mk.injEq] at h
          rw [← h.2.2]
          rfl
  · intro ctx env inbox ctx2 rest effs h1 h2 h
    rw [handleStop_start_init h1 h2] at h
    simp only [Except.ok.injEq, Prod.mk.injEq] at h
    exact ⟨h.2.2.symm, h.1.symm⟩

/-- The operation list of the C7 witness: attach the processor, record a
`Magic::Start` stop, handle it with a one-byte `Run`. -/
def c7wops : List HarnessOp :=
  [HarnessOp.setProcessor,
   HarnessOp.setStopReason (some (StopReason.magic Magic.start)),
   HarnessOp.handleStop env1 [FuzzerEvent.run [0xAA]]]

/-- The final state of the C7 witness run. -/
def c7wout : ModuleCtx :=
  { initialCtx cfg0 8 with
    processor := true
    initialized := true
    buffer_address := 0x4000
    buffer_size := 16 }

/-- The effect trace of the C7 witness run. -/
def c7weffs : List Effect :=
  [Effect.saveMicroCheckpoint, Effect.send .ready,
   Effect.writePhys 0x4000 0xAA 1, Effect.resumeSimulation]

theorem c7_witness :
    (run (initialCtx cfg0 8) c7wops = .ok (c7wout, c7weffs)) ∧
    countSaves c7weffs ≤ 1 := by
  have H := c7_origin_snapshot_once
  exact ⟨by decide, H.1 cfg0 8 c7wops (c7wout, c7weffs) (by decide)⟩

/-! ## C8 -/

/-- C8: during initialization the `X86_Triple_Fault` callback is
installed iff `Fault::Triple` is in the configured fault set, the
`Core_Exception` callback is installed iff the set has at least one
non-triple member, and `Core_Magic_Instruction` /
`Core_Simulation_Stopped` are installed unconditionally. -/
theorem c8_callbacks_installed (faults : List Fault) :
    (Callback.x86TripleFault ∈ ctxCallbacks faults ↔
      Fault.triple ∈ faults) ∧
    (Callback.coreException ∈ ctxCallbacks faults ↔
      ∃ f ∈ faults, f ≠ Fault.triple) ∧
    Callback.magicInstruction ∈ ctxCallbacks faults ∧
    Callback.simulationStopped ∈ ctxCallbacks faults := by
  unfold ctxCallbacks tryNewCallbacks
  by_cases ht : Fault.triple ∈ faults <;>
    by_cases he : faults.any (fun f => f ≠ Fault.triple) <;>
      simp_all [List.any_eq_true]

/-! ## C9 -/

/-- C9: during bootstrap, a first message other than
`Initialize(config)` makes `ModuleCtx::try_new` fail
(`bail!("Expected initialize command")`), and on `Initialize(config)`
the received configuration becomes the frozen `init_info` of the harness
state. -/
theorem c9_first_message_must_be_init (len : Nat)
    (inbox : List FuzzerEvent) :
    (∀ ev rest, inbox = ev :: rest →
      (∀ cfg, ev ≠ FuzzerEvent.init cfg) →
      tryNew inbox len = .error HarnessError.unexpectedEvent) ∧
    (∀ cfg rest, inbox = FuzzerEvent.init cfg :: rest →
      tryNew inbox len = .ok (initialCtx cfg len, rest,
        tryNewCallbacks cfg.faults, [Effect.send .sharedMem]) ∧
      (initialCtx cfg len).init_info = cfg) := by
  constructor
  · intro ev rest hin hne
    subst hin
    cases ev with
    | init cfg => exact absurd rfl (hne cfg)
    | run input => rfl
    | reset => rfl
    | stop => rfl
  · intro cfg rest hin
    subst hin
    exact ⟨rfl, rfl⟩

theorem c9_witness :
    (tryNew [FuzzerEvent.reset] 8 = .error HarnessError.unexpectedEvent) ∧
    (tryNew [FuzzerEvent.init cfg0] 8 = .ok (initialCtx cfg0 8, [], [],
      [Effect.send .sharedMem])) ∧
    (initialCtx cfg0 8).init_info = cfg0 := by
  have H1 := (c9_first_message_must_be_init 8 [FuzzerEvent.reset]).1
    FuzzerEvent.reset [] rfl (by intro cfg; exact FuzzerEvent.noConfusion)
  have H2 := (c9_first_message_must_be_init 8 [FuzzerEvent.init cfg0]).2
    cfg0 [] rfl
  exact ⟨H1, H2.1, H2.2⟩

/-! ## C10 -/

/-- C10: trace-mode parsing is insensitive to letter case (it only
depends on the lowercased string), accepts `"hitcount"` as an alias next
to `"hit_count"` and `"once"`, fails on every string whose lowercase form
is none of those three, and parsing the string produced by
`TraceMode::to_string` returns the original value. -/
theorem c10_trace_mode_parsing :
    (∀ s t, lowerString s = lowerString t →
      traceModeFromStr s = traceModeFromStr t) ∧
    traceModeFromStr "hitcount" = .ok TraceMode.hitCount ∧
    traceModeFromStr "HitCount" = .ok TraceMode.hitCount ∧
    traceModeFromStr "hit_count" = .ok TraceMode.hitCount ∧
    traceModeFromStr "ONCE" = .ok TraceMode.once ∧
    (∀ s, lowerString s ∉ (["once", "hit_count", "hitcount"] : List String) →
      traceModeFromStr s = .error HarnessError.noSuchTraceMode) ∧
    (∀ m, traceModeFromStr (TraceMode.toString m) = .ok m) := by
  refine ⟨?_, by decide, by decide, by decide, by decide, ?_, ?_⟩
  · intro s t h
    unfold traceModeFromStr
    rw [h]
  · intro s hs
    simp only [List.mem_cons, List.mem_singleton, not_or] at hs
    unfold traceModeFromStr
    simp only [hs.1, hs.2.1, hs.2.2, if_false]
  · intro m
    cases m <;> decide

theorem c10_witness :
    (traceModeFromStr "Once" = traceModeFromStr "oNCE") ∧
    (traceModeFromStr "tracemode" = .error HarnessError.noSuchTraceMode) ∧
    (traceModeFromStr (TraceMode.toString TraceMode.once) =
      .ok TraceMode.once) := by
  have H := c10_trace_mode_parsing
  exact ⟨H.1 "Once" "oNCE" (by decide),
    H.2.2.2.2.2.1 "tracemode" (by decide),
    H.2.2.2.2.2.2 TraceMode.once⟩

end Confuse
